import Mathlib

/-!
# Verification of the json-db in-memory relational engine

A shallow embedding of `src/python/json_db.py` (the table core: construction,
accessors, equality, and the relational operators), together with the points
where `src/trunk/python/json_db.py` ("trunk" variant) differs and a claim
depends on the difference (`trunk_build`, `trunk_distinct`).

Modelling conventions:
* Cell values are a tagged union `Value` over null / integer / string.  The
  claims under verification only exercise these tags; float and boolean cells
  are not used by any claim and are omitted from the embedding.
* Python dictionaries keyed by column name or key string are modelled as
  lookup functions over the underlying lists; dict assignment in a loop is
  last-write-wins, which `lastIdxWhere` reproduces.
* Fallible Python code (`raise`) is modelled with `Except String`, the string
  holding (an abbreviation of) the exception message.
* `str(v)` is modelled by `pyStr`; `cmp(a, b)` for cells by `pyCmp`
  (Python 2 cross-type order: None < numbers < strings).
-/

/-- A cell value: the JSON scalars a claim exercises (null, integer, string). -/
inductive Value where
  | null : Value
  | int : Int → Value
  | str : String → Value
deriving Repr, DecidableEq

/-- Python `str(v)` for a cell value (used to key the primary-key index). -/
def pyStr : Value → String
  | .null => "None"
  | .int n => toString n
  | .str s => s

/-- Index of the LAST element satisfying `p` (a Python dict built by a loop
`d[k] = i` with `i` ascending keeps the last binding per key). -/
def lastIdxWhere (p : α → Bool) : List α → Option Nat
  | [] => none
  | x :: xs =>
    match lastIdxWhere p xs with
    | some j => some (j + 1)
    | none => if p x then some 0 else none

/-- The raw structural description handed to `Table.__init__` (a JSON
object).  A JSON `null` field value behaves like an absent field wherever the
source checks `is not None`, so `Option` covers both.  In the trunk variant
the primary-key field is spelled `key` instead of `primary key`;
`trunk_build` reads `primaryKey` as that field. -/
structure Desc where
  rows : List (List Value)
  columns : Option (List String) := none
  primaryKey : Option String := none
  name : Option String := none
  comment : Option String := none
  version : Option Int := none
  kind : Option String := none
deriving Repr, DecidableEq

/-- The constructed table (src/python `Table`): column list, row matrix,
optional primary key with its resolved column index, and metadata.  The
source's `__keys` dict is recomputed by `keyLookup` rather than stored. -/
structure Table where
  columns : List String
  rows : List (List Value)
  primaryKey : Option String := none
  pkIdx : Option Nat := none
  name : Option String := none
  comment : Option String := none
  version : Int := 1
deriving Repr, DecidableEq

/-- ASCII lower-casing of one character (Python `str.lower` on the
column-name alphabet). -/
def lowerChar (c : Char) : Char :=
  if c ≥ 'A' && c ≤ 'Z' then Char.ofNat (c.toNat + 32) else c

/-- Python `s.lower()`. -/
def pyLower (s : String) : String := ⟨s.data.map lowerChar⟩

/-- Python `s.strip()`. -/
def pyStrip (s : String) : String :=
  ⟨((s.data.dropWhile (·.isWhitespace)).reverse.dropWhile (·.isWhitespace)).reverse⟩

/-- `self.__column_indices[s]`: the dict maps each lower-cased column name to
its index, later columns overwriting earlier ones. -/
def lookupCI (cols : List String) (s : String) : Option Nat :=
  lastIdxWhere (fun c => pyLower c == s) cols

/-- `Table.__init__` of src/python on a dict input: resolve or synthesize
`columns`, check every row's arity, resolve the primary key (the key index
itself is recomputed by `keyLookup`), validate `kind`.  There is no
duplicate-key check anywhere in this path. -/
def build (d : Desc) : Except String Table := do
  let rows := d.rows
  let cols ← match d.columns with
    | some cs => pure cs
    | none =>
      if rows.length == 0 || (rows.headD []).length == 0 then
        throw "ValueError"
      else
        pure ((List.range (rows.headD []).length).map (fun i => "c" ++ toString i))
  if !(rows.all (fun r => r.length == cols.length)) then
    throw "ValueError: no. of columns in row differs from header"
  let pk ← match d.primaryKey with
    | some pkName =>
      match lookupCI cols (pyLower pkName) with
      | some i => pure (some (pkName, i))
      | none => throw "KeyError: primary key"
    | none => pure none
  if (d.kind.getD "table") ≠ "table" then
    throw "ValueError: object kind isn't a table"
  pure { columns := cols, rows := rows,
         primaryKey := pk.map Prod.fst, pkIdx := pk.map Prod.snd,
         name := d.name, comment := d.comment,
         version := d.version.getD 1 }

/-- `self.__keys[s]`: the key index built by `__keys[str(r[pk_idx])] = i`
over the rows in order — the last row with a given key string wins. -/
def keyLookup (t : Table) (s : String) : Option Nat :=
  match t.pkIdx with
  | some i => lastIdxWhere (fun r => pyStr (r.getD i .null) == s) t.rows
  | none => none

/-- Python list indexing `xs[n]` with negative-index wraparound;
`none` models `IndexError`. -/
def pythonGet (xs : List α) (n : Int) : Option α :=
  if 0 ≤ n then xs.get? n.toNat
  else if n.natAbs ≤ xs.length then xs.get? (xs.length - n.natAbs)
  else none

/-- `Table.rowByIndex` (the `Row` view reduced to its value list). -/
def rowByIndex (t : Table) (n : Int) : Option (List Value) :=
  pythonGet t.rows n

/-- `Table.rowByKey`: `self.__rows[self.__keys[str(key)]]`;
`none` models the `KeyError`. -/
def rowByKey (t : Table) (v : Value) : Option (List Value) :=
  (keyLookup t (pyStr v)).bind (fun j => t.rows.get? j)

/-- `Table.row(id)`: positional lookup only for an integer id whose `str` is
absent from the key index, otherwise key lookup. -/
def row (t : Table) (v : Value) : Option (List Value) :=
  match v with
  | .int n => if (keyLookup t (pyStr v)).isSome then rowByKey t v else rowByIndex t n
  | _ => rowByKey t v

/-- `Table.__eq__`: same column list, same row count, and every row of `self`
occurs (by `==`) among `other`'s rows. -/
def tableEq (t o : Table) : Bool :=
  t.columns == o.columns && t.rows.length == o.rows.length
    && t.rows.all (fun r => o.rows.contains r)

/-- `Table.union` (src/python): schema check, then for each row of `other`:
with a primary key on `self`, append unseen keys, skip identical rows, raise
naming the key on a content conflict (the conflict is judged against the row
the key index points at); without one, append rows not already accumulated.
The schema-mismatch branch `return ValueError` hands the caller an exception
object instead of a table; we model it as an error.  The per-row loop body
is `unionStep`. -/
def unionStep (t : Table) (acc : List (List Value)) (r : List Value) :
    Except String (List (List Value)) :=
  match t.pkIdx with
  | some pkI =>
    let key := pyStr (r.getD pkI .null)
    match keyLookup t key with
    | none => pure (acc ++ [r])
    | some j =>
      if t.rows.getD j [] == r then pure acc
      else Except.error ("duplicate primary key \x22" ++ key ++ "\x22 in union")
  | none => pure (if acc.contains r then acc else acc ++ [r])

def union (t o : Table) : Except String Table :=
  if t.columns ≠ o.columns then .error "ValueError"
  else
    match o.rows.foldlM (unionStep t) t.rows with
    | .ok rows =>
      build { columns := some t.columns, rows := rows, primaryKey := t.primaryKey }
    | .error e => .error e

/-- First-occurrence duplicate elimination (`if not r in new_rows:
new_rows.append(r)`). -/
def dedupFirst (rows : List (List Value)) : List (List Value) :=
  rows.foldl (fun acc r => if acc.contains r then acc else acc ++ [r]) []

/-- `Table.distinct` (src/python): drops duplicate row contents keeping first
occurrences; the primary key is passed through unconditionally. -/
def distinct (t : Table) : Except String Table :=
  build { columns := some t.columns, rows := dedupFirst t.rows,
          primaryKey := t.primaryKey }

/-- `_merge_rows(srow, orow, other_idx)`: `srow` followed by `orow` with the
element at `other_idx` left out. -/
def mergeRows (srow orow : List α) (otherIdx : Nat) : List α :=
  srow ++ orow.eraseIdx otherIdx

/-- `other.rowAsList(srow[self_idx])` inside the key-indexed join strategy:
`Table.row` dispatch, with `KeyError`/`IndexError` mapped to `none`. -/
def rowAsListOpt (o : Table) (v : Value) : Option (List Value) :=
  row o v

/-- `Table.join` of src/python with the join columns already resolved
(`self_col`/`other_col` given; the common-column auto-resolution is not
needed by any claim).  If `other_col` names `other`'s primary key the
key-indexed strategy is used, otherwise the nested loop that emits one row
per matching pair; with `outer_join` an unmatched left row is padded with
nulls for every `other` column except the join column.  The per-`self`-row
loop body is `joinStep`; the nested-loop matches are `joinHits`. -/
def joinHits (o : Table) (srow : List Value) (selfIdx otherIdx : Nat) :
    List (List Value) :=
  o.rows.filterMap (fun orow =>
    if srow.getD selfIdx .null == orow.getD otherIdx .null then
      some (mergeRows srow orow otherIdx)
    else none)

def joinStep (o : Table) (outerJoin pkJoin : Bool) (selfIdx otherIdx : Nat)
    (acc : List (List Value)) (srow : List Value) : List (List Value) :=
  let nullRow : List Value := List.replicate o.columns.length .null
  if pkJoin then
    match rowAsListOpt o (srow.getD selfIdx .null) with
    | some orow => acc ++ [mergeRows srow orow otherIdx]
    | none =>
      if outerJoin then acc ++ [mergeRows srow nullRow otherIdx] else acc
  else
    if outerJoin && (joinHits o srow selfIdx otherIdx).isEmpty then
      acc ++ [mergeRows srow nullRow otherIdx]
    else acc ++ joinHits o srow selfIdx otherIdx

def join (t o : Table) (outerJoin : Bool) (selfCol otherCol : String) :
    Except String Table :=
  match lookupCI t.columns (pyLower selfCol),
        lookupCI o.columns (pyLower otherCol) with
  | some selfIdx, some otherIdx =>
    let pkJoin := match o.primaryKey with
      | some pk => pk ≠ "" && pyLower otherCol == pyLower pk
      | none => false
    build { columns := some (mergeRows t.columns o.columns otherIdx),
            rows := t.rows.foldl (joinStep o outerJoin pkJoin selfIdx otherIdx) [] }
  | none, _ => .error "KeyError: self_col"
  | _, none => .error "KeyError: other_col"

/-- Association-list model of the Python dict `agg` used by `summarize`:
lookup by group-key tuple. -/
def aggLookup (agg : List (List Value × Nat)) (k : List Value) : Option Nat :=
  match agg with
  | [] => none
  | (k', n) :: rest => if k' == k then some n else aggLookup rest k

/-- `agg[per_key] = agg[per_key] + 1` / `agg[per_key] = 1`: bump the count of
a present key in place, or append a fresh binding. -/
def aggIncr (agg : List (List Value × Nat)) (k : List Value) :
    List (List Value × Nat) :=
  match agg with
  | [] => [(k, 1)]
  | (k', n) :: rest =>
    if k' == k then (k', n + 1) :: rest else (k', n) :: aggIncr rest k

/-- `Table.summarize(per_column_names)` with no aggregator function:
group by the tuple of (stripped, lower-cased) group-column values, count each
group, and emit `group key ++ [count]` under columns `per ++ ["count"]`.
With zero rows the loop never runs, `add_column_names` stays `None` and
`per_columns + None` raises `TypeError`.  The dict iteration of the source is
modelled in insertion order. -/
def resolveCols (t : Table) (cs : List String) : Except String (List Nat) :=
  cs.mapM (fun c => match lookupCI t.columns c with
    | some i => pure i
    | none => Except.error "KeyError: summarize column")

def summarize (t : Table) (perColumnNames : List String) :
    Except String Table :=
  match resolveCols t
      ((perColumnNames.map (fun c => pyStrip c)).map (fun c => pyLower c)) with
  | .error e => .error e
  | .ok perIdxs =>
    match t.rows.foldl
        (fun acc r => aggIncr acc (perIdxs.map (fun i => r.getD i .null))) [] with
    | [] => .error "TypeError: cannot concatenate list and NoneType"
    | agg => build
        { columns := some ((perColumnNames.map (fun c => pyStrip c)) ++ ["count"]),
          rows := agg.map (fun p => p.1 ++ [.int p.2]) }

/-- Python 2 `cmp` on cell values: `None` below everything, numbers below
strings, same-tag values by their natural order. -/
def pyCmp : Value → Value → Ordering
  | .null, .null => .eq
  | .null, _ => .lt
  | _, .null => .gt
  | .int a, .int b => compare a b
  | .int _, .str _ => .lt
  | .str _, .int _ => .gt
  | .str a, .str b => compare a b

/-- `fn_aux(a, b, indices)` of `orderBy`: lexicographic comparison along the
signed 1-based column indices, a negative index flipping the direction. -/
def cmpAux (a b : List Value) : List Int → Ordering
  | [] => .eq
  | idx :: rest =>
    let i := idx.natAbs
    let r := pyCmp (a.getD (i - 1) .null) (b.getD (i - 1) .null)
    let r := if 0 ≤ idx then r else r.swap
    if r = .eq then cmpAux a b rest else r

/-- Stable insertion into a run sorted by `c` (an element moves past exactly
the prefix it compares `gt` against, as Python's stable `list.sort(cmp)`). -/
def insertOrd (c : α → α → Ordering) (x : α) : List α → List α
  | [] => [x]
  | y :: ys => if c x y = .gt then y :: insertOrd c x ys else x :: y :: ys

/-- A stable comparison sort (the unique stable reordering, matching
Python's `list.sort` with a comparison function). -/
def sortOrd (c : α → α → Ordering) (l : List α) : List α :=
  l.foldr (insertOrd c) []

/-- `Table.orderBy(columns)` of src/python.  `r = Table({..., "rows":
self.__rows})` stores the caller's row list itself (`__init__` does not copy
it), and `r.__rows.sort(fn)` then sorts that shared list in place.  The
result is the pair (returned table, the state of `self`'s row list after the
call) — the two alias the same sorted list. -/
def orderBy (t : Table) (columns : List String) :
    Except String (Table × List (List Value)) := do
  let colindices ← columns.foldlM (fun (acc : List Int) c =>
    let c := pyLower (pyStrip c)
    match c.data with
    | [] => throw "IndexError"
    | ch :: _ =>
      if ch = '-' then
        match lookupCI t.columns (c.drop 1) with
        | some i => pure (acc ++ [-(Int.ofNat i + 1)])
        | none => throw "KeyError: orderBy column"
      else
        match lookupCI t.columns c with
        | some i => pure (acc ++ [Int.ofNat i + 1])
        | none => throw "KeyError: orderBy column") []
  let sorted := sortOrd (fun a b => cmpAux a b colindices) t.rows
  pure ({ columns := t.columns, rows := sorted }, sorted)

/-- Truthiness of an optional string field (`if self.__name:` — absent and
empty are both falsy). -/
def pyTruthyStr : Option String → Bool
  | some s => s ≠ ""
  | none => false

/-- `Table._dumps(include_data=True)` read back through the JSON parser: the
description object the emitted string denotes.  `kind`, `version`, `columns`
and `rows` are always emitted; `name`, `comment` and `primary key` only when
truthy. -/
def dumpsDesc (t : Table) : Desc :=
  { rows := t.rows,
    columns := some t.columns,
    primaryKey := if pyTruthyStr t.primaryKey then t.primaryKey else none,
    name := if pyTruthyStr t.name then t.name else none,
    comment := if pyTruthyStr t.comment then t.comment else none,
    version := some t.version,
    kind := some "table" }

/-- `Table.__init__` of the trunk variant (src/trunk/python): `kind` is
checked first, the primary-key field is spelled `key` (held in
`Desc.primaryKey`) and is looked up RAW against the lower-cased column map,
and — the faithful reproduction of trunk line 257 — the guard for a missing
`columns` field tests `len(obj['rows']) == 0` twice, so a nonempty rows list
whose first row is empty slips through and synthesizes zero columns. -/
def trunk_build (d : Desc) : Except String Table := do
  if (d.kind.getD "table") ≠ "table" then
    throw "ValueError: object kind isn't a table"
  let rows := d.rows
  let cols ← match d.columns with
    | some cs => pure cs
    | none =>
      if rows.length == 0 || rows.length == 0 then
        throw "ValueError"
      else
        pure ((List.range (rows.headD []).length).map (fun i => "c" ++ toString i))
  if !(rows.all (fun r => r.length == cols.length)) then
    throw "ValueError: no. of columns in row differs from header"
  let pk ← match d.primaryKey with
    | some k =>
      match lookupCI cols k with
      | some i => pure (some (k, i))
      | none => throw "KeyError: key"
    | none => pure none
  pure { columns := cols, rows := rows,
         primaryKey := pk.map Prod.fst, pkIdx := pk.map Prod.snd,
         name := d.name, comment := d.comment,
         version := d.version.getD 1 }

/-- `Table.distinct` of the trunk variant: with a truthy key it runs
`return self.copy()` — but the trunk `Table` class defines no `copy` method,
so every such call raises `AttributeError`; without a key it deduplicates by
first occurrence and rebuilds without a key. -/
def trunk_distinct (t : Table) : Except String Table :=
  if pyTruthyStr t.primaryKey then
    .error "AttributeError: Table object has no attribute copy"
  else
    trunk_build { columns := some t.columns, rows := dedupFirst t.rows }

/-- Spec-side reading of an inner equi-join (claim C3): one merged output row
per pair `(r1, r2)` with `r1[si] == r2[oi]`, in row order. -/
def matchingPairsRows (t o : Table) (si oi : Nat) : List (List Value) :=
  t.rows.flatMap (fun srow => o.rows.filterMap (fun orow =>
    if srow.getD si .null == orow.getD oi .null then
      some (mergeRows srow orow oi)
    else none))

/-- Everything `build` guarantees about a table it returns. -/
theorem build_ok_facts (d : Desc) (t : Table) (h : build d = .ok t) :
    t.rows = d.rows ∧
    (d.rows.all (fun r => r.length == t.columns.length) = true) ∧
    t.primaryKey = d.primaryKey ∧
    (∀ pk, d.primaryKey = some pk →
      ∃ i, lookupCI t.columns (pyLower pk) = some i ∧ t.pkIdx = some i) ∧
    (d.primaryKey = none → t.pkIdx = none) ∧
    (∀ cs, d.columns = some cs → t.columns = cs) := by
  unfold build at h
  simp only [bind, Except.bind, pure, Except.pure, throw, throwThe,
    MonadExceptOf.throw] at h
  split at h
  case _ cs heqc =>
    split at h
    · exact Except.noConfusion h
    · split at h
      case _ pkName heqpk =>
        split at h
        case _ i heql =>
          split at h
          · exact Except.noConfusion h
          · simp only [Except.ok.injEq] at h
            subst h
            simp_all
        case _ heql => exact Except.noConfusion h
      case _ heqpk =>
        split at h
        · exact Except.noConfusion h
        · simp only [Except.ok.injEq] at h
          subst h
          simp_all
  case _ heqc =>
    split at h
    · exact Except.noConfusion h
    · split at h
      · exact Except.noConfusion h
      · split at h
        case _ pkName heqpk =>
          split at h
          case _ i heql =>
            split at h
            · exact Except.noConfusion h
            · simp only [Except.ok.injEq] at h
              subst h
              simp_all
          case _ heql => exact Except.noConfusion h
        case _ heqpk =>
          split at h
          · exact Except.noConfusion h
          · simp only [Except.ok.injEq] at h
            subst h
            simp_all

/-- `build` succeeds on an explicit-columns, no-primary-key description whose
rows all have the right arity. -/
theorem build_ok_nopk (d : Desc) (cols : List String)
    (hc : d.columns = some cols)
    (ha : d.rows.all (fun r => r.length == cols.length) = true)
    (hpk : d.primaryKey = none)
    (hk : (d.kind.getD "table") = "table") :
    build d = .ok
      { columns := cols, rows := d.rows, primaryKey := none, pkIdx := none,
        name := d.name, comment := d.comment, version := d.version.getD 1 } := by
  unfold build
  simp [hc, ha, hpk, hk, bind, Except.bind, pure, Except.pure]

/-- `build` succeeds on an explicit-columns description with a resolving
primary key and rows of the right arity — note no condition about duplicate
key values appears. -/
theorem build_ok_pk (d : Desc) (cols : List String) (pk : String) (i : Nat)
    (hc : d.columns = some cols)
    (ha : d.rows.all (fun r => r.length == cols.length) = true)
    (hpk : d.primaryKey = some pk)
    (hl : lookupCI cols (pyLower pk) = some i)
    (hk : (d.kind.getD "table") = "table") :
    build d = .ok
      { columns := cols, rows := d.rows, primaryKey := some pk, pkIdx := some i,
        name := d.name, comment := d.comment, version := d.version.getD 1 } := by
  unfold build
  simp [hc, ha, hpk, hl, hk, bind, Except.bind, pure, Except.pure]

/-- A successful `lastIdxWhere` points at an element satisfying the
predicate. -/
theorem lastIdxWhere_some_spec {p : α → Bool} {xs : List α} {j : Nat}
    (h : lastIdxWhere p xs = some j) :
    ∃ a, xs.get? j = some a ∧ p a = true := by
  induction xs generalizing j with
  | nil => simp [lastIdxWhere] at h
  | cons x xs ih =>
    unfold lastIdxWhere at h
    cases hl : lastIdxWhere p xs with
    | some j' =>
      rw [hl] at h
      simp only [Option.some.injEq] at h
      subst h
      obtain ⟨a, ha, hpa⟩ := ih hl
      exact ⟨a, by simpa using ha, hpa⟩
    | none =>
      rw [hl] at h
      by_cases hp : p x = true
      · rw [if_pos hp] at h
        simp only [Option.some.injEq] at h
        subst h
        exact ⟨x, rfl, hp⟩
      · rw [if_neg hp] at h
        exact Option.noConfusion h

/-- A two-row description carrying the same key value `1` in both rows with
different row content. -/
def dupKeyDesc : Desc :=
  { rows := [[.int 1, .int 2], [.int 1, .int 3]],
    columns := some ["k", "v"],
    primaryKey := some "k" }

/-- Claim C1 counterexample: construction with a primary key does NOT fail
when two rows carry the same key value with different content — `build` on
`dupKeyDesc` returns a `Table` (the key index simply points at the last
occurrence). -/
theorem build_accepts_duplicate_keys :
    build dupKeyDesc = Except.ok
      { columns := ["k", "v"],
        rows := [[.int 1, .int 2], [.int 1, .int 3]],
        primaryKey := some "k", pkIdx := some 0,
        name := none, comment := none, version := 1 } := by
  rfl

/-- Claim C1 (amended): construction with a primary key succeeds whenever the
rows have the right arity and the key resolves to a column — no duplicate-key
condition exists — and the resulting key index is built over the rows with
later rows overwriting earlier ones (`keyLookup` is `lastIdxWhere`). -/
theorem build_pk_no_duplicate_check (cols : List String)
    (rows : List (List Value)) (pk : String) (i : Nat)
    (ha : rows.all (fun r => r.length == cols.length) = true)
    (hl : lookupCI cols (pyLower pk) = some i) :
    ∃ t, build { rows := rows, columns := some cols, primaryKey := some pk } = .ok t ∧
      t.rows = rows ∧ t.primaryKey = some pk ∧
      ∀ s, keyLookup t s = lastIdxWhere (fun r => pyStr (r.getD i .null) == s) rows := by
  refine ⟨_, build_ok_pk _ cols pk i rfl ha rfl hl rfl, rfl, rfl, fun s => rfl⟩

/-- Witness for `build_pk_no_duplicate_check` at the duplicate-key input. -/
theorem build_pk_no_duplicate_check_witness :
    ∃ t, build { rows := [[.int 1, .int 2], [.int 1, .int 3]],
                 columns := some ["k", "v"], primaryKey := some "k" } = .ok t ∧
      t.rows = [[.int 1, .int 2], [.int 1, .int 3]] ∧ t.primaryKey = some "k" ∧
      ∀ s, keyLookup t s =
        lastIdxWhere (fun r => pyStr (r.getD 0 .null) == s)
          [[.int 1, .int 2], [.int 1, .int 3]] :=
  build_pk_no_duplicate_check ["k", "v"] [[.int 1, .int 2], [.int 1, .int 3]]
    "k" 0 (by decide) (by decide)

/-- A two-row unkeyed table description out of sort order. -/
def unsortedDesc : Desc :=
  { rows := [[.int 2], [.int 1]], columns := some ["a"] }

/-- Claim C6 (code bug): `orderBy` of src/python sorts the caller's row list
in place (the new table's `__init__` stores `self.__rows` without copying,
and `.sort` mutates that shared list), so the input table's row sequence
changes from `[[2], [1]]` to `[[1], [2]]` across the call, contradicting the
documented immutability of `Table`. -/
theorem orderBy_mutates_input :
    ((build unsortedDesc).toOption.map Table.rows) = some [[.int 2], [.int 1]] ∧
    ((build unsortedDesc).toOption.bind fun t =>
      (orderBy t ["a"]).toOption.map Prod.snd) = some [[.int 1], [.int 2]] ∧
    ([[.int 2], [.int 1]] : List (List Value)) ≠ [[.int 1], [.int 2]] :=
  ⟨rfl, rfl, by decide⟩

/-- A keyed single-row table description (trunk spelling: field `key`). -/
def keyedDesc : Desc :=
  { rows := [[.int 1, .int 2]], columns := some ["k", "v"],
    primaryKey := some "k" }

/-- Claim C7 (code bug): on a keyed table, trunk `distinct()` executes
`return self.copy()`, but `Table` defines no `copy` method, so the call
raises `AttributeError` instead of returning a no-op copy.  The unkeyed
path (and the src/python variant for every table) does deduplicate by first
occurrence, as on the test-suite fixture. -/
theorem trunk_distinct_keyed_crashes :
    ((trunk_build keyedDesc).toOption.map trunk_distinct) =
      some (Except.error "AttributeError: Table object has no attribute copy") ∧
    ((build { rows := [[.int 1, .int 1], [.int 1, .int 1], [.int 1, .int 2],
                       [.int 1, .int 2], [.int 2, .int 3]],
              columns := some ["a", "b"] }).toOption.bind fun t =>
      (distinct t).toOption.map Table.rows) =
      some [[.int 1, .int 1], [.int 1, .int 2], [.int 2, .int 3]] :=
  ⟨rfl, rfl⟩

/-- Claim C8 (code bug): with `columns` absent, src/python rejects an empty
rows list and an empty first row, and otherwise synthesizes `c0..cN-1`; but
the trunk variant's guard tests `len(rows) == 0` twice (line 257), so the
empty-first-row description `{"rows": [[]]}` is ACCEPTED there and builds a
zero-column table. -/
theorem columns_synthesis_guard :
    build { rows := ([[]] : List (List Value)) } = .error "ValueError" ∧
    build { rows := ([] : List (List Value)) } = .error "ValueError" ∧
    ((build { rows := [[.int 1, .int 2], [.int 3, .int 4]] }).toOption.map
      Table.columns) = some ["c0", "c1"] ∧
    trunk_build { rows := ([[]] : List (List Value)) } = Except.ok
      { columns := [], rows := [[]], primaryKey := none, pkIdx := none,
        name := none, comment := none, version := 1 } :=
  ⟨rfl, rfl, rfl, rfl⟩

/-- Claim C10: primary-key lookup is mediated by `str()`: `rowByKey` on an
integer and on its decimal string agree; a successful `rowByKey` returns a
row of the table whose key cell stringifies to the queried key's string; and
`row(id)` on an integer dispatches to the key index exactly when `str(id)`
is present there, falling back to positional lookup otherwise. -/
theorem row_lookup_stringified (t : Table) :
    (∀ n : Int, rowByKey t (.int n) = rowByKey t (.str (toString n))) ∧
    (∀ v r, rowByKey t v = some r →
      r ∈ t.rows ∧ ∃ i, t.pkIdx = some i ∧ pyStr (r.getD i .null) = pyStr v) ∧
    (∀ n : Int, row t (.int n) =
      if (keyLookup t (toString n)).isSome then rowByKey t (.int n)
      else rowByIndex t n) := by
  refine ⟨fun n => rfl, ?_, fun n => rfl⟩
  intro v r h
  unfold rowByKey at h
  cases hk : keyLookup t (pyStr v) with
  | none => rw [hk] at h; exact Option.noConfusion h
  | some j =>
    rw [hk] at h
    have h2 : t.rows.get? j = some r := h
    unfold keyLookup at hk
    cases hpi : t.pkIdx with
    | none => rw [hpi] at hk; exact Option.noConfusion hk
    | some i =>
      rw [hpi] at hk
      have hk2 : lastIdxWhere (fun s => pyStr (s.getD i .null) == pyStr v) t.rows
          = some j := hk
      obtain ⟨a, ha, hpa⟩ := lastIdxWhere_some_spec hk2
      rw [h2] at ha
      simp only [Option.some.injEq] at ha
      subst ha
      exact ⟨List.get?_mem h2, i, rfl, by simpa using hpa⟩

/-- Witness for `row_lookup_stringified` on a concrete keyed table. -/
theorem row_lookup_stringified_witness :
    rowByKey
      { columns := ["k", "v"], rows := [[.int 1, .int 7]],
        primaryKey := some "k", pkIdx := some 0 } (.int 1) =
      some [.int 1, .int 7] ∧
    ([.int 1, .int 7] ∈
      (Table.mk ["k", "v"] [[.int 1, .int 7]] (some "k") (some 0) none none 1).rows ∧
     ∃ i, (Table.mk ["k", "v"] [[.int 1, .int 7]] (some "k") (some 0) none none 1).pkIdx
        = some i ∧
       pyStr (([Value.int 1, Value.int 7]).getD i .null) = pyStr (.int 1)) :=
  ⟨rfl,
   (row_lookup_stringified
     (Table.mk ["k", "v"] [[.int 1, .int 7]] (some "k") (some 0) none none 1)).2.1
     (.int 1) [.int 1, .int 7] rfl⟩

/-- Claim C4 counterexample: `__eq__` is not multiset equality and not
symmetric — `[[1],[1]]` equals `[[1],[2]]` (every row of the first occurs in
the second and the lengths agree) although the row multisets differ and the
reversed comparison is false. -/
theorem tableEq_asymmetric :
    ((build { rows := [[.int 1], [.int 1]], columns := some ["a"] }).toOption.bind
      fun t1 =>
        (build { rows := [[.int 1], [.int 2]], columns := some ["a"] }).toOption.map
          fun t2 => (tableEq t1 t2, tableEq t2 t1)) = some (true, false) ∧
    (↑([[Value.int 1], [Value.int 1]] : List (List Value)) : Multiset (List Value)) ≠
      ↑([[Value.int 1], [Value.int 2]] : List (List Value)) :=
  ⟨rfl, by decide⟩

/-- Claim C4 (amended): `t1 == t2` holds iff the columns agree, the row
counts agree and every row of `t1` occurs among `t2`'s rows; when `t1`'s
rows are pairwise distinct this coincides with multiset equality of the row
sequences (symmetry can fail only when `t1` has duplicate rows). -/
theorem tableEq_iff_multiset (t1 t2 : Table) (h : t1.rows.Nodup) :
    tableEq t1 t2 = true ↔
      (t1.columns = t2.columns ∧
        (↑t1.rows : Multiset (List Value)) = ↑t2.rows) := by
  constructor
  · intro he
    unfold tableEq at he
    simp only [Bool.and_eq_true, beq_iff_eq, List.all_eq_true] at he
    obtain ⟨⟨hcols, hlen⟩, hmem⟩ := he
    refine ⟨hcols, ?_⟩
    have hsub : (↑t1.rows : Multiset (List Value)) ≤ ↑t2.rows := by
      rw [Multiset.le_iff_subset (by simpa using h)]
      intro r hr
      have hc := hmem r (by simpa using hr)
      simpa using hc
    refine Multiset.eq_of_le_of_card_le hsub ?_
    simpa using hlen.symm.le
  · rintro ⟨hcols, hms⟩
    unfold tableEq
    simp only [Bool.and_eq_true, beq_iff_eq, List.all_eq_true]
    have hlen : t1.rows.length = t2.rows.length := by
      simpa using congrArg Multiset.card hms
    refine ⟨⟨hcols, hlen⟩, ?_⟩
    intro r hr
    have hmem2 : r ∈ t2.rows := by
      have : r ∈ (↑t2.rows : Multiset (List Value)) := by
        rw [← hms]; simpa using hr
      simpa using this
    simpa using hmem2

/-- Witness for `tableEq_iff_multiset` on two duplicate-free tables with the
same rows in different orders. -/
theorem tableEq_iff_multiset_witness :
    tableEq
      (Table.mk ["a"] [[.int 1], [.int 2]] none none none none 1)
      (Table.mk ["a"] [[.int 2], [.int 1]] none none none none 1) = true ↔
      ((["a"] : List String) = ["a"] ∧
        (↑([[Value.int 1], [Value.int 2]] : List (List Value)) :
            Multiset (List Value)) =
          ↑([[Value.int 2], [Value.int 1]] : List (List Value))) :=
  tableEq_iff_multiset
    (Table.mk ["a"] [[.int 1], [.int 2]] none none none none 1)
    (Table.mk ["a"] [[.int 2], [.int 1]] none none none none 1) (by decide)

/-- If some member satisfies `p`, `lastIdxWhere` finds an index. -/
theorem lastIdxWhere_isSome_of_mem {p : α → Bool} {xs : List α} {a : α}
    (ha : a ∈ xs) (hp : p a = true) : ∃ j, lastIdxWhere p xs = some j := by
  induction xs with
  | nil => cases ha
  | cons x xs ih =>
    cases hl : lastIdxWhere p xs with
    | some j => exact ⟨j + 1, by unfold lastIdxWhere; rw [hl]⟩
    | none =>
      rcases List.mem_cons.mp ha with h1 | h2
      · subst h1
        exact ⟨0, by unfold lastIdxWhere; rw [hl, if_pos hp]⟩
      · obtain ⟨j, hj⟩ := ih h2
        rw [hj] at hl
        exact Option.noConfusion hl

/-- Two tables with the same columns and the same row list compare equal
under `__eq__`. -/
theorem tableEq_same_content (t o : Table) (hc : t.columns = o.columns)
    (hr : t.rows = o.rows) : tableEq t o = true := by
  unfold tableEq
  rw [hc, hr]
  simp only [beq_self_eq_true, Bool.true_and, List.all_eq_true]
  intro r hrr
  simpa using hrr

/-- A monadic fold whose step leaves every accumulator unchanged returns the
initial accumulator. -/
theorem except_foldlM_const {f : β → α → Except String β} {l : List α}
    (h : ∀ b a, a ∈ l → f b a = pure b) (b : β) : l.foldlM f b = pure b := by
  induction l generalizing b with
  | nil => rfl
  | cons x xs ih =>
    rw [List.foldlM_cons, h b x (List.mem_cons_self x xs)]
    rw [pure_bind]
    exact ih (fun b a ha => h b a (List.mem_cons_of_mem _ ha)) b

/-- With pairwise-distinct key strings, looking up any row's own key finds a
position holding exactly that row. -/
theorem keyLookup_self {t : Table} {pkI : Nat} (hpk : t.pkIdx = some pkI)
    (hnd : (t.rows.map (fun r => pyStr (r.getD pkI .null))).Nodup)
    {r : List Value} (hr : r ∈ t.rows) :
    ∃ j, keyLookup t (pyStr (r.getD pkI .null)) = some j ∧
      t.rows.getD j [] = r := by
  obtain ⟨j, hj⟩ := lastIdxWhere_isSome_of_mem
    (p := fun s => pyStr (s.getD pkI .null) == pyStr (r.getD pkI .null)) hr
    (by simp)
  obtain ⟨a, ha, hpa⟩ := lastIdxWhere_some_spec hj
  have haeq : a = r :=
    List.inj_on_of_nodup_map hnd (List.get?_mem ha) hr (by simpa using hpa)
  refine ⟨j, ?_, ?_⟩
  · unfold keyLookup
    rw [hpk]
    exact hj
  · rw [List.getD_eq_getElem?_getD, ← List.get?_eq_getElem?, ha, haeq]
    rfl

/-- Claim C2 counterexample: union of a keyed table WITH ITSELF fails with
the duplicate-key error when the table (which construction accepts, see
`build_accepts_duplicate_keys`) carries the same key in two different rows:
the per-row conflict check compares against the row the last-write-wins
index points at, not the row itself. -/
theorem union_self_duplicate_key_fails :
    ((build dupKeyDesc).toOption.map fun t => union t t) =
      some (Except.error "duplicate primary key \x221\x22 in union") := by
  rfl

/-- Claim C2 (amended): for a constructed keyed table whose key strings are
pairwise distinct, union with itself skips every row and returns a table
equal to the original. -/
theorem union_self_keyed_idempotent (d : Desc) (t : Table)
    (hb : build d = .ok t) (pkI : Nat) (hpk : t.pkIdx = some pkI)
    (hnd : (t.rows.map (fun r => pyStr (r.getD pkI .null))).Nodup) :
    ∃ t2, union t t = .ok t2 ∧ tableEq t2 t = true := by
  obtain ⟨hrows, hall, hpkeq, hpkres, hpknone, _⟩ := build_ok_facts d t hb
  cases hdpk : d.primaryKey with
  | none =>
    rw [hpknone hdpk] at hpk
    exact Option.noConfusion hpk
  | some pk =>
    obtain ⟨i, hl, hpi⟩ := hpkres pk hdpk
    rw [hpi] at hpk
    obtain rfl : i = pkI := Option.some.inj hpk
    have hallt : t.rows.all (fun r => r.length == t.columns.length) = true := by
      rw [hrows]
      exact hall
    have hstep : ∀ acc r, r ∈ t.rows → unionStep t acc r = pure acc := by
      intro acc r hr
      obtain ⟨j, hkl, hgd⟩ := keyLookup_self hpi hnd hr
      unfold unionStep
      rw [hpi]
      show (match keyLookup t (pyStr (r.getD i .null)) with
        | none => (pure (acc ++ [r]) : Except String (List (List Value)))
        | some j =>
          if t.rows.getD j [] == r then pure acc
          else Except.error ("duplicate primary key \x22" ++
            pyStr (r.getD i .null) ++ "\x22 in union")) = pure acc
      rw [hkl]
      show (if t.rows.getD j [] == r then pure acc
        else Except.error ("duplicate primary key \x22" ++
          pyStr (r.getD i .null) ++ "\x22 in union")) = pure acc
      rw [if_pos (by simpa using hgd)]
    have hfold : t.rows.foldlM (unionStep t) t.rows = pure t.rows :=
      except_foldlM_const hstep t.rows
    have hbuild := build_ok_pk
      { columns := some t.columns, rows := t.rows, primaryKey := t.primaryKey }
      t.columns pk i rfl hallt
      (show t.primaryKey = some pk by rw [hpkeq, hdpk]) hl rfl
    refine ⟨{ columns := t.columns, rows := t.rows, primaryKey := some pk,
              pkIdx := some i, name := none, comment := none, version := 1 },
            ?_, ?_⟩
    · unfold union
      rw [if_neg (by simp), hfold]
      exact hbuild
    · exact tableEq_same_content _ _ rfl rfl

/-- A well-formed keyed description with distinct keys. -/
def twoKeyDesc : Desc :=
  { rows := [[.int 1, .int 2], [.int 3, .int 4]],
    columns := some ["k", "v"], primaryKey := some "k" }

/-- The table `build twoKeyDesc` yields. -/
def twoKeyTable : Table :=
  { columns := ["k", "v"], rows := [[.int 1, .int 2], [.int 3, .int 4]],
    primaryKey := some "k", pkIdx := some 0,
    name := none, comment := none, version := 1 }

/-- Witness for `union_self_keyed_idempotent` at a concrete keyed table. -/
theorem union_self_keyed_idempotent_witness :
    ∃ t2, union twoKeyTable twoKeyTable = .ok t2 ∧
      tableEq t2 twoKeyTable = true :=
  union_self_keyed_idempotent twoKeyDesc twoKeyTable (by rfl) 0 (by rfl)
    (by decide)

/-- Claim C9: for every description that builds, re-building from the
serialized form of the built table yields a table `==`-equal to the
original build (in both directions of `__eq__`). -/
theorem build_dumps_roundtrip (d : Desc) (t : Table) (hb : build d = .ok t) :
    ∃ t2, build (dumpsDesc t) = .ok t2 ∧
      tableEq t2 t = true ∧ tableEq t t2 = true := by
  obtain ⟨hrows, hall, hpkeq, hpkres, hpknone, _⟩ := build_ok_facts d t hb
  have hallt : t.rows.all (fun r => r.length == t.columns.length) = true := by
    rw [hrows]
    exact hall
  by_cases hpt : pyTruthyStr t.primaryKey = true
  · cases hpk : t.primaryKey with
    | none =>
      rw [hpk] at hpt
      simp [pyTruthyStr] at hpt
    | some pk =>
      obtain ⟨i, hl, hpi⟩ := hpkres pk (by rw [← hpkeq, hpk])
      have hb2 := build_ok_pk (dumpsDesc t) t.columns pk i rfl hallt
        (show (if pyTruthyStr t.primaryKey then t.primaryKey else none)
            = some pk by rw [if_pos hpt, hpk]) hl rfl
      exact ⟨_, hb2, tableEq_same_content _ _ rfl rfl,
        tableEq_same_content _ _ rfl rfl⟩
  · have hb2 := build_ok_nopk (dumpsDesc t) t.columns rfl hallt
      (show (if pyTruthyStr t.primaryKey then t.primaryKey else none)
          = none by rw [if_neg hpt]) rfl
    exact ⟨_, hb2, tableEq_same_content _ _ rfl rfl,
      tableEq_same_content _ _ rfl rfl⟩

/-- Witness for `build_dumps_roundtrip` at a concrete keyed description. -/
theorem build_dumps_roundtrip_witness :
    ∃ t2, build (dumpsDesc twoKeyTable) = .ok t2 ∧
      tableEq t2 twoKeyTable = true ∧ tableEq twoKeyTable t2 = true :=
  build_dumps_roundtrip twoKeyDesc twoKeyTable (by rfl)

/-- Folding `acc ++ f x` over a list appends the concatenation of the `f`
images. -/
theorem foldl_append_eq_flatMap (f : α → List β) (l : List α) (init : List β) :
    l.foldl (fun acc x => acc ++ f x) init = init ++ l.flatMap f := by
  induction l generalizing init with
  | nil => simp
  | cons x xs ih => simp [ih]

/-- A resolved column index is in range. -/
theorem lookupCI_lt {cols : List String} {s : String} {i : Nat}
    (h : lookupCI cols s = some i) : i < cols.length := by
  obtain ⟨a, ha, _⟩ := lastIdxWhere_some_spec h
  exact (List.get?_eq_some.mp ha).1

/-- Claim C3 counterexample: joining `{columns [a], rows [[0]]}` with the
keyed table `{columns [b, c], key b, rows [["x", 5]]}` on `a = b` takes the
key-indexed strategy; `str(0)` misses the key index, `row(0)` falls back to
POSITIONAL lookup, and the inner join emits `[0, 5]` — the merge of a pair
whose join cells `0` and `"x"` are NOT equal (the matching-pairs reading is
empty), so the two strategies disagree. -/
theorem join_pk_strategy_divergence :
    ((build { rows := [[.int 0]], columns := some ["a"] }).toOption.bind
      fun t1 =>
        (build { rows := [[.str "x", .int 5]], columns := some ["b", "c"],
                 primaryKey := some "b" }).toOption.bind
          fun t2 =>
            (join t1 t2 false "a" "b").toOption.map
              fun tj => (tj.rows, matchingPairsRows t1 t2 0 0)) =
      some ([[.int 0, .int 5]], []) := by
  rfl

/-- Claim C3 (amended): when the join column on `other` is NOT its primary
key (the nested-loop strategy), the inner join emits exactly the merges of
the matching pairs, in order, under the merged column list. -/
theorem join_inner_nonpk (t o : Table) (selfCol otherCol : String)
    (si oi : Nat)
    (hsi : lookupCI t.columns (pyLower selfCol) = some si)
    (hoi : lookupCI o.columns (pyLower otherCol) = some oi)
    (hnpk : (match o.primaryKey with
      | some pk => pk ≠ "" && pyLower otherCol == pyLower pk
      | none => false) = false)
    (hta : t.rows.all (fun r => r.length == t.columns.length) = true)
    (hoa : o.rows.all (fun r => r.length == o.columns.length) = true) :
    ∃ tj, join t o false selfCol otherCol = .ok tj ∧
      tj.columns = mergeRows t.columns o.columns oi ∧
      tj.rows = matchingPairsRows t o si oi := by
  have hta' := List.all_eq_true.mp hta
  have hoa' := List.all_eq_true.mp hoa
  have hoilt : oi < o.columns.length := lookupCI_lt hoi
  have hstep : ∀ acc srow, joinStep o false false si oi acc srow
      = acc ++ joinHits o srow si oi := by
    intro acc srow
    unfold joinStep
    simp
  have hfold : ∀ (l : List (List Value)) (init : List (List Value)),
      l.foldl (joinStep o false false si oi) init
        = init ++ l.flatMap (fun srow => joinHits o srow si oi) := by
    intro l
    induction l with
    | nil => intro init; simp
    | cons x xs ih =>
      intro init
      rw [List.foldl_cons, hstep, ih]
      simp
  have hro : t.rows.foldl (joinStep o false false si oi) []
      = matchingPairsRows t o si oi := by
    rw [hfold]
    rfl
  have harityout : (matchingPairsRows t o si oi).all
      (fun r => r.length == (mergeRows t.columns o.columns oi).length)
      = true := by
    rw [List.all_eq_true]
    intro nr hnr
    obtain ⟨srow, hsrow, hnr2⟩ := List.mem_flatMap.mp hnr
    obtain ⟨orow, horow, hnr3⟩ := List.mem_filterMap.mp hnr2
    have horlen : orow.length = o.columns.length := by
      simpa using hoa' orow horow
    have hsrlen : srow.length = t.columns.length := by
      simpa using hta' srow hsrow
    split at hnr3
    · simp only [Option.some.injEq] at hnr3
      subst hnr3
      unfold mergeRows
      simp only [List.length_append, List.length_eraseIdx, horlen, hsrlen,
        beq_iff_eq]
    · exact Option.noConfusion hnr3
  have hbuild := build_ok_nopk
    { columns := some (mergeRows t.columns o.columns oi),
      rows := matchingPairsRows t o si oi }
    (mergeRows t.columns o.columns oi) rfl harityout rfl rfl
  refine ⟨{ columns := mergeRows t.columns o.columns oi,
            rows := matchingPairsRows t o si oi,
            primaryKey := none, pkIdx := none,
            name := none, comment := none, version := 1 }, ?_, rfl, rfl⟩
  unfold join
  rw [hsi, hoi]
  show build
    { columns := some (mergeRows t.columns o.columns oi),
      rows := t.rows.foldl (joinStep o false
        (match o.primaryKey with
          | some pk => pk ≠ "" && pyLower otherCol == pyLower pk
          | none => false) si oi) [] } = _
  rw [hnpk, hro]
  exact hbuild

/-- Witness for `join_inner_nonpk` on a concrete unkeyed pair of tables. -/
theorem join_inner_nonpk_witness :
    ∃ tj, join (Table.mk ["a"] [[.int 1]] none none none none 1)
        (Table.mk ["b", "c"] [[.int 1, .int 5]] none none none none 1)
        false "a" "b" = .ok tj ∧
      tj.columns = mergeRows ["a"] ["b", "c"] 0 ∧
      tj.rows = matchingPairsRows
        (Table.mk ["a"] [[.int 1]] none none none none 1)
        (Table.mk ["b", "c"] [[.int 1, .int 5]] none none none none 1) 0 0 :=
  join_inner_nonpk _ _ "a" "b" 0 0 (by decide) (by decide) rfl
    (by decide) (by decide)

/-- Spec-side reading of the count aggregation (claim C5): one entry per
distinct group key in first-occurrence order, carrying its multiplicity. -/
def aggOf (ks : List (List Value)) : List (List Value × Nat) :=
  (dedupFirst ks).map (fun k => (k, ks.count k))

/-- Membership through the dedup fold. -/
theorem dedupFirst_go_mem (l acc : List (List Value)) (x : List Value) :
    (x ∈ l.foldl (fun a r => if a.contains r then a else a ++ [r]) acc) ↔
      (x ∈ acc ∨ x ∈ l) := by
  induction l generalizing acc with
  | nil => simp
  | cons r l ih =>
    rw [List.foldl_cons]
    by_cases hc : acc.contains r
    · have hr : r ∈ acc := by simpa using hc
      rw [if_pos hc, ih]
      simp only [List.mem_cons]
      constructor
      · tauto
      · rintro (h | rfl | h) <;> tauto
    · rw [if_neg hc, ih]
      simp only [List.mem_append, List.mem_cons, List.mem_singleton]
      tauto

/-- `dedupFirst` keeps exactly the members. -/
theorem mem_dedupFirst (l : List (List Value)) (x : List Value) :
    x ∈ dedupFirst l ↔ x ∈ l := by
  unfold dedupFirst
  rw [dedupFirst_go_mem]
  simp

/-- The dedup fold preserves freedom from duplicates. -/
theorem dedupFirst_go_nodup (l acc : List (List Value)) (h : acc.Nodup) :
    (l.foldl (fun a r => if a.contains r then a else a ++ [r]) acc).Nodup := by
  induction l generalizing acc with
  | nil => simpa
  | cons r l ih =>
    rw [List.foldl_cons]
    by_cases hc : acc.contains r
    · rw [if_pos hc]
      exact ih _ h
    · rw [if_neg hc]
      apply ih
      have hr : r ∉ acc := by simpa using hc
      rw [List.nodup_append]
      exact ⟨h, List.nodup_singleton r, by simpa using hr⟩

/-- `dedupFirst` produces a duplicate-free list. -/
theorem nodup_dedupFirst (l : List (List Value)) : (dedupFirst l).Nodup :=
  dedupFirst_go_nodup l [] List.nodup_nil

/-- One more element through `dedupFirst`. -/
theorem dedupFirst_append_singleton (l : List (List Value)) (k : List Value) :
    dedupFirst (l ++ [k]) =
      if (dedupFirst l).contains k then dedupFirst l
      else dedupFirst l ++ [k] := by
  unfold dedupFirst
  rw [List.foldl_append]
  rfl

/-- Bumping a present key in an association list of per-key counters. -/
theorem aggIncr_of_map_mem {D : List (List Value)} (hD : D.Nodup)
    (cnt : List Value → Nat) (k : List Value) (hk : k ∈ D) :
    aggIncr (D.map (fun x => (x, cnt x))) k =
      D.map (fun x => (x, if x = k then cnt x + 1 else cnt x)) := by
  induction D with
  | nil => cases hk
  | cons d D ih =>
    rw [List.map_cons, List.map_cons]
    unfold aggIncr
    by_cases hd : d = k
    · subst hd
      rw [if_pos (show (d == d) = true by simp), if_pos rfl]
      have hknot : d ∉ D := (List.nodup_cons.mp hD).1
      congr 1
      apply List.map_congr_left
      intro x hx
      rw [if_neg (fun hxd : x = d => hknot (hxd ▸ hx))]
    · rw [if_neg hd, if_neg (by simpa using hd)]
      congr 1
      exact ih (List.nodup_cons.mp hD).2 (by
        rcases List.mem_cons.mp hk with h1 | h2
        · exact absurd h1.symm hd
        · exact h2)

/-- Appending a fresh key to an association list of per-key counters. -/
theorem aggIncr_of_map_not_mem {D : List (List Value)}
    (cnt : List Value → Nat) (k : List Value) (hk : k ∉ D) :
    aggIncr (D.map (fun x => (x, cnt x))) k =
      D.map (fun x => (x, cnt x)) ++ [(k, 1)] := by
  induction D with
  | nil => rfl
  | cons d D ih =>
    rw [List.map_cons]
    unfold aggIncr
    have hd : d ≠ k := fun h => hk (h ▸ List.mem_cons_self d D)
    rw [if_neg (by simpa using hd)]
    congr 1
    exact ih (fun h => hk (List.mem_cons_of_mem _ h))

/-- One aggregation step matches the spec-side counters. -/
theorem aggIncr_aggOf (ks : List (List Value)) (k : List Value) :
    aggIncr (aggOf ks) k = aggOf (ks ++ [k]) := by
  unfold aggOf
  by_cases hk : k ∈ dedupFirst ks
  · rw [aggIncr_of_map_mem (nodup_dedupFirst ks) _ k hk]
    rw [dedupFirst_append_singleton, if_pos (by simpa using hk)]
    apply List.map_congr_left
    intro x hx
    rw [List.count_append]
    by_cases hxk : x = k
    · subst hxk
      simp
    · simp [List.count_singleton, hxk, Ne.symm hxk]
  · rw [aggIncr_of_map_not_mem _ k hk]
    rw [dedupFirst_append_singleton, if_neg (by simpa using hk)]
    rw [List.map_append]
    have hkks : k ∉ ks := fun h => hk ((mem_dedupFirst ks k).mpr h)
    congr 1
    · apply List.map_congr_left
      intro x hx
      have hxk : x ≠ k := fun hxe => hkks (hxe ▸ (mem_dedupFirst ks x).mp hx)
      rw [List.count_append]
      simp [List.count_singleton, Ne.symm hxk]
    · rw [List.map_singleton, List.count_append]
      have : ks.count k = 0 := List.count_eq_zero.mpr hkks
      simp [this, List.count_singleton]

/-- The whole aggregation fold computes the spec-side counters. -/
theorem foldl_aggIncr_eq_aggOf (ks : List (List Value)) :
    ks.foldl aggIncr [] = aggOf ks := by
  have hgen : ∀ (ks pre : List (List Value)),
      ks.foldl aggIncr (aggOf pre) = aggOf (pre ++ ks) := by
    intro ks
    induction ks with
    | nil => intro pre; simp
    | cons k ks ih =>
      intro pre
      rw [List.foldl_cons, aggIncr_aggOf, ih]
      congr 1
      simp
  have h0 : aggOf [] = [] := rfl
  have := hgen ks []
  rw [h0] at this
  simpa using this

/-- A successful `mapM` into `Except` preserves list length. -/
theorem except_mapM_length {f : α → Except String β} :
    ∀ {l : List α} {res : List β}, l.mapM f = .ok res → res.length = l.length := by
  intro l
  induction l with
  | nil =>
    intro res h
    simp only [List.mapM_nil, pure, Except.pure, Except.ok.injEq] at h
    subst h
    rfl
  | cons x xs ih =>
    intro res h
    rw [List.mapM_cons] at h
    simp only [bind, Except.bind, pure, Except.pure] at h
    cases hfx : f x with
    | error e => rw [hfx] at h; exact Except.noConfusion h
    | ok b =>
      rw [hfx] at h
      cases hxs : xs.mapM f with
      | error e => rw [hxs] at h; exact Except.noConfusion h
      | ok bs =>
        rw [hxs] at h
        simp only [Except.ok.injEq] at h
        subst h
        simp [ih hxs]

/-- A fold of the dedup step over elements already present leaves the
accumulator unchanged. -/
theorem dedupFirst_go_const {c : List Value} :
    ∀ (rest : List (List Value)) (acc : List (List Value)),
      acc.contains c = true → (∀ x ∈ rest, x = c) →
      rest.foldl (fun a r => if a.contains r then a else a ++ [r]) acc = acc := by
  intro rest
  induction rest with
  | nil => intro acc _ _; rfl
  | cons x xs ih =>
    intro acc hc hall
    rw [List.foldl_cons]
    have hx : x = c := hall x (List.mem_cons_self x xs)
    subst hx
    rw [if_pos hc]
    exact ih acc hc (fun y hy => hall y (List.mem_cons_of_mem _ hy))

/-- Deduplicating a nonempty constant list gives the singleton. -/
theorem dedupFirst_const {l : List (List Value)} {c : List Value}
    (hne : l ≠ []) (hall : ∀ x ∈ l, x = c) : dedupFirst l = [c] := by
  cases l with
  | nil => exact absurd rfl hne
  | cons x xs =>
    have hx : x = c := hall x (List.mem_cons_self x xs)
    unfold dedupFirst
    rw [List.foldl_cons]
    have hstep : (if ([] : List (List Value)).contains x = true
        then ([] : List (List Value)) else [] ++ [x]) = [x] := rfl
    rw [hstep, hx]
    exact dedupFirst_go_const xs [c] (by simp)
      (fun y hy => hall y (List.mem_cons_of_mem _ hy))

/-- Claim C5 counterexample: on a table with zero rows, `summarize([])` (and
any summarize) raises — the aggregation dict stays empty, `add_column_names`
stays `None` and `per_columns + None` is a `TypeError` — instead of
returning a one-row count table. -/
theorem summarize_empty_table_fails :
    ((build { rows := ([] : List (List Value)), columns := some ["a"] }).toOption.map
      fun t => summarize t []) =
      some (Except.error "TypeError: cannot concatenate list and NoneType") := by
  rfl

/-- Claim C5 (amended): on a NONEMPTY table whose group columns resolve,
summarize without an aggregator returns the table whose columns are the
stripped group columns plus `count`, with one row per distinct group-key
tuple in first-occurrence order carrying that group's multiplicity; with no
group columns this is the single row holding the table's row count. -/
theorem summarize_count_groups (t : Table) (perColumnNames : List String)
    (idxs : List Nat)
    (hres : resolveCols t
      ((perColumnNames.map (fun c => pyStrip c)).map (fun c => pyLower c))
      = .ok idxs)
    (hne : t.rows ≠ []) :
    ∃ T, summarize t perColumnNames = .ok T ∧
      T.columns = (perColumnNames.map (fun c => pyStrip c)) ++ ["count"] ∧
      T.rows = (dedupFirst (t.rows.map
          (fun r => idxs.map (fun i => r.getD i .null)))).map
        (fun k => k ++ [Value.int ((t.rows.map
          (fun r => idxs.map (fun i => r.getD i .null))).count k)]) ∧
      (perColumnNames = [] → T.rows = [[Value.int t.rows.length]]) := by
  have hlenidx : idxs.length = perColumnNames.length := by
    unfold resolveCols at hres
    have h1 := except_mapM_length hres
    simpa using h1
  have hfold : t.rows.foldl
      (fun acc r => aggIncr acc (idxs.map (fun i => r.getD i .null))) []
      = aggOf (t.rows.map (fun r => idxs.map (fun i => r.getD i .null))) := by
    rw [← foldl_aggIncr_eq_aggOf, List.foldl_map]
  have hkeysne : t.rows.map (fun r => idxs.map (fun i => r.getD i .null)) ≠ [] := by
    intro h
    exact hne (List.map_eq_nil_iff.mp h)
  have harity : ((aggOf (t.rows.map
        (fun r => idxs.map (fun i => r.getD i .null)))).map
        (fun p => p.1 ++ [Value.int p.2])).all
      (fun r => r.length ==
        ((perColumnNames.map (fun c => pyStrip c)) ++ ["count"]).length)
      = true := by
    rw [List.all_eq_true]
    intro nr hnr
    obtain ⟨p, hp, hpe⟩ := List.mem_map.mp hnr
    obtain ⟨k, hk, hke⟩ := List.mem_map.mp hp
    have hkmem := (mem_dedupFirst _ k).mp hk
    obtain ⟨r, _, hre⟩ := List.mem_map.mp hkmem
    subst hpe
    subst hke
    simp only [List.length_append, List.length_map, List.length_singleton,
      beq_iff_eq]
    rw [← hre]
    simp [hlenidx]
  have hbuild := build_ok_nopk
    { columns := some ((perColumnNames.map (fun c => pyStrip c)) ++ ["count"]),
      rows := (aggOf (t.rows.map
        (fun r => idxs.map (fun i => r.getD i .null)))).map
        (fun p => p.1 ++ [Value.int p.2]) }
    ((perColumnNames.map (fun c => pyStrip c)) ++ ["count"])
    rfl harity rfl rfl
  have hrowschar : ((aggOf (t.rows.map
        (fun r => idxs.map (fun i => r.getD i .null)))).map
        (fun p => p.1 ++ [Value.int p.2]))
      = (dedupFirst (t.rows.map
          (fun r => idxs.map (fun i => r.getD i .null)))).map
        (fun k => k ++ [Value.int ((t.rows.map
          (fun r => idxs.map (fun i => r.getD i .null))).count k)]) := by
    unfold aggOf
    rw [List.map_map]
    rfl
  refine ⟨{ columns := (perColumnNames.map (fun c => pyStrip c)) ++ ["count"],
            rows := (aggOf (t.rows.map
              (fun r => idxs.map (fun i => r.getD i .null)))).map
              (fun p => p.1 ++ [Value.int p.2]),
            primaryKey := none, pkIdx := none, name := none, comment := none,
            version := 1 }, ?_, rfl, hrowschar, ?_⟩
  · unfold summarize
    rw [hres]
    show (match t.rows.foldl
        (fun acc r => aggIncr acc (idxs.map (fun i => r.getD i .null))) [] with
      | [] => (.error "TypeError: cannot concatenate list and NoneType" :
          Except String Table)
      | agg => build
          { columns := some ((perColumnNames.map (fun c => pyStrip c)) ++ ["count"]),
            rows := agg.map (fun (p : List Value × Nat) =>
              p.1 ++ [Value.int p.2]) }) = _
    rw [hfold]
    cases hagg : aggOf (t.rows.map
        (fun r => idxs.map (fun i => r.getD i .null))) with
    | nil =>
      exfalso
      unfold aggOf at hagg
      have hd := List.map_eq_nil_iff.mp hagg
      cases hks : t.rows.map (fun r => idxs.map (fun i => r.getD i .null)) with
      | nil => exact hkeysne hks
      | cons k ks =>
        have : k ∈ dedupFirst (t.rows.map
            (fun r => idxs.map (fun i => r.getD i .null))) :=
          (mem_dedupFirst _ k).mpr (by rw [hks]; exact List.mem_cons_self k ks)
        rw [hd] at this
        cases this
    | cons p ps =>
      show build
        { columns := some ((perColumnNames.map (fun c => pyStrip c)) ++ ["count"]),
          rows := (p :: ps).map (fun p => p.1 ++ [Value.int p.2]) } = _
      rw [← hagg]
      exact hbuild
  · intro hper
    subst hper
    have hidxs : idxs = [] := by
      have h2 : (Except.ok ([] : List Nat) : Except String (List Nat))
          = Except.ok idxs := hres
      exact (Except.ok.inj h2).symm
    subst hidxs
    rw [hrowschar]
    have hconst : ∀ x ∈ t.rows.map
        (fun r => ([] : List Nat).map (fun i => r.getD i .null)), x = [] := by
      intro x hx
      obtain ⟨r, _, hre⟩ := List.mem_map.mp hx
      exact hre.symm
    rw [dedupFirst_const hkeysne hconst]
    rw [List.map_singleton]
    have hcount : (t.rows.map
        (fun r => ([] : List Nat).map (fun i => r.getD i .null))).count []
        = t.rows.length := by
      rw [List.count_eq_length.mpr (fun b hb => (hconst b hb).symm)]
      exact List.length_map _ _
    rw [hcount]
    rfl

/-- The six-row test-suite table used to exercise summarize. -/
def sumTable : Table :=
  { columns := ["a", "b", "c"],
    rows := [[.int 1, .int 2, .int 10], [.int 1, .int 4, .int 5],
             [.int 2, .int 2, .int 8], [.int 2, .int 4, .int 6],
             [.int 2, .int 5, .int 5], [.int 2, .int 5, .int 6]],
    primaryKey := none, pkIdx := none, name := none, comment := none,
    version := 1 }

/-- Witness for `summarize_count_groups` on the test-suite table. -/
theorem summarize_count_groups_witness :
    ∃ T, summarize sumTable ["a"] = .ok T ∧
      T.columns = ((["a"] : List String).map (fun c => pyStrip c)) ++ ["count"] ∧
      T.rows = (dedupFirst (sumTable.rows.map
          (fun r => ([0] : List Nat).map (fun i => r.getD i .null)))).map
        (fun k => k ++ [Value.int ((sumTable.rows.map
          (fun r => ([0] : List Nat).map (fun i => r.getD i .null))).count k)]) ∧
      ((["a"] : List String) = [] → T.rows = [[Value.int sumTable.rows.length]]) :=
  summarize_count_groups sumTable ["a"] [0] (by rfl) (by decide)
